import Mathlib

/-!
Shallow embedding of the ReguBot core (src/app.py): the configuration tables,
upload-state management, the query-context classifier, the citation validator
(the regular-expression scan with its replacement function and the final
exclusion pass), the Gemini client wrapper and the response pipeline.

Strings are modelled as lists of characters where the Python code works
character-wise. The single citation pattern of CitationValidator.validate is
embedded as an explicit deterministic scanner: every repetition in that
pattern is followed by a required character that the repeated class cannot
match, so the Python regex engine never backtracks into a different split and
the scanner below computes exactly the leftmost, non-overlapping matches of
re.sub. Recursions over text use a fuel argument equal to the length of the
text; each step consumes at least one character, so the fuel never runs out
and the definitions stay structurally recursive and computable.
-/

namespace ReguBot

/-- Character class of the Python regex token for whitespace and of str.strip,
restricted to ASCII. -/
def isPySpace (c : Char) : Bool :=
  c == ' ' || c == '\t' || c == '\n' || c == '\r' || c == '\x0b' || c == '\x0c'

/-- Test whether the first list is an initial segment of the second. -/
def leadsWith : List Char → List Char → Bool
  | [], _ => true
  | _ :: _, [] => false
  | p :: ps, c :: cs => p == c && leadsWith ps cs

/-- Substring test: the Python operator in on strings. -/
def occursIn (pat : List Char) : List Char → Bool
  | [] => leadsWith pat []
  | c :: rest => leadsWith pat (c :: rest) || occursIn pat rest

/-- Python str.strip on a character list. -/
def trimList (l : List Char) : List Char :=
  ((l.dropWhile isPySpace).reverse.dropWhile isPySpace).reverse

/-- Decimal digits to a natural number: the int conversion applied to the
matched digit group. -/
def digitsToNat (ds : List Char) : Nat :=
  ds.foldl (fun acc c => 10 * acc + (c.toNat - 48)) 0

/-- Config.EXCLUDED_REGULATIONS from src/app.py: shipped empty, customizable
by an operator out of band, so the validator below is also parametrized by the
list. -/
def EXCLUDED_REGULATIONS : List String := []

/-- Config.REGULATION_STRUCTURE from src/app.py. The Python value
list(range(1, n)) is List.range' 1 (n - 1), the integers 1 to n - 1. -/
def REGULATION_STRUCTURE : List (String × List Nat) := [
  ("UU No 3 Tahun 2024", List.range' 1 132),
  ("UU No 6 Tahun 2014", List.range' 1 132),
  ("PP No 11 Tahun 2019", List.range' 1 151),
  ("PP Nomor 8 Tahun 2016", List.range' 1 28),
  ("Permendagri No 111 Tahun 2014", List.range' 1 33),
  ("Permendagri No 112 Tahun 2014", List.range' 1 50),
  ("Permendagri No 20 Tahun 2018", List.range' 1 106),
  ("Permendagri No 114 Tahun 2014", List.range' 1 44),
  ("Permendesa No. 2 Tahun 2024", List.range' 1 25),
  ("Peraturan Presiden Nomor 12 Tahun 2021", List.range' 1 137),
  ("Peraturan Presiden Nomor 16 Tahun 2018", List.range' 1 132),
  ("Peraturan Presiden Nomor 46 Tahun 2025", List.range' 1 49),
  ("Peraturan Lembaga Nomor 2 Tahun 2025", List.range' 1 24),
  ("Peraturan Lembaga Nomor 12 Tahun 2019", List.range' 1 19),
  ("Keputusan Deputi I Nomor 1 Tahun 2025", List.range' 1 9),
  ("Keputusan Deputi I Nomor 2 Tahun 2024", List.range' 1 9),
  ("Perbup No 44 Tahun 2020", List.range' 1 39),
  ("Surat Edaran Kepala LKPP Nomor 1 Tahun 2025", [])]

/-- Config.PBJ_KEYWORDS from src/app.py. -/
def PBJ_KEYWORDS : List String :=
  ["pengadaan", "barang", "jasa", "lelang", "tender",
   "kontrak", "penyedia", "pokja", "ukpbj", "pejabat pengadaan",
   "hps", "aanwijzing", "sanggah", "pascakualifikasi", "prakualifikasi"]

/-- StateManager.load_state: the argument models the persisted state file,
none for a missing file and some files for a file holding processed_files. A
missing file yields an empty processed_files list instead of an error. -/
def load_state (file : Option (List String)) : List String :=
  match file with
  | some files => files
  | none => []

/-- StateManager.save_state: the stored record becomes the set union of the
previously recorded names and the new batch. Python materializes the union as
an unordered set; the model keeps first occurrences in order, which has the
same membership. -/
def save_state (prev_processed new_file_names : List String) : List String :=
  (prev_processed ++ new_file_names).dedup

/-- Parameter validation performed by the RecursiveCharacterTextSplitter
constructor from the langchain dependency, as called by
PDFProcessor.create_chunks. The dependency raises ValueError exactly when
chunk_overlap is strictly greater than chunk_size, storing the parameters
unchanged otherwise; the check runs before any text is examined. -/
def splitterInit (chunk_size chunk_overlap : Nat) : Except String (Nat × Nat) :=
  if chunk_size < chunk_overlap then
    Except.error "Got a larger chunk overlap than chunk size, should be smaller."
  else Except.ok (chunk_size, chunk_overlap)

/-- PDFProcessor.create_chunks restricted to its configuration outcome: the
stored splitter parameters on success (showing no clamping), or the
constructor error. The text argument is carried only to show that the
validation outcome does not depend on it. -/
def create_chunks_config (_text : String) (chunk_size chunk_overlap : Nat) :
    Except String (Nat × Nat) :=
  splitterInit chunk_size chunk_overlap

/-- Suffix appended for excluded regulations in CitationValidator.validate. -/
def exclSuffix : List Char := " (dikecualikan dari penggunaan)".toList

/-- Suffix appended for unverifiable article citations. -/
def unverifSuffix : List Char := " (pasal tidak dapat diverifikasi)".toList

/-- The literal word required between the comma and the article digits. -/
def pasalLit : List Char := "Pasal".toList

/-- The alternatives of the leading group of the citation pattern, in source
order. No alternative is an initial segment of another, so at most one of them
can match at a given position. -/
def regPrefixes : List (List Char) :=
  ["UU", "PP", "Permendagri", "Permendesa", "Peraturan Presiden",
   "Peraturan Lembaga", "Keputusan Deputi I", "Perbup",
   "Surat Edaran Kepala LKPP"].map String.toList

/-- Step of the citation pattern after the name group: the name group takes
everything up to the first comma, then the comma itself is required. Returns
the text after the comma. -/
def afterComma (s : List Char) : Option (List Char) :=
  match s.dropWhile (fun c => c != ',') with
  | ',' :: r => some r
  | _ => none

/-- Steps of the citation pattern after the comma: optional spaces, the
literal Pasal, optional spaces, then at least one digit, greedily. Returns
the article number and the text after the match. -/
def parsePasal (r2 : List Char) : Option (Nat × List Char) :=
  let r3 := r2.dropWhile isPySpace
  if leadsWith pasalLit r3 then
    let r5 := (r3.drop pasalLit.length).dropWhile isPySpace
    let ds := r5.takeWhile Char.isDigit
    if ds = [] then none
    else some (digitsToNat ds, r5.drop ds.length)
  else none

/-- Attempt to match the citation pattern of CitationValidator.validate at the
start of the text. On success, returns the captured name group (the matched
alternative plus everything up to the first comma), the article number and the
text after the whole match. -/
def matchAt (s : List Char) : Option (List Char × Nat × List Char) :=
  if regPrefixes.any (fun p => leadsWith p s) then
    match afterComma s with
    | some r2 =>
      match parsePasal r2 with
      | some (n, after) => some (s.takeWhile (fun c => c != ','), n, after)
      | none => none
    | none => none
  else none

/-- The replacement function inside CitationValidator.validate, applied to the
captured name group (stripped) and article number. -/
def replacer (excluded : List String) (regRaw : List Char) (pasal : Nat) : List Char :=
  let reg := trimList regRaw
  if excluded.contains (String.mk reg) then reg ++ exclSuffix
  else
    match REGULATION_STRUCTURE.lookup (String.mk reg) with
    | none => reg ++ unverifSuffix
    | some [] => reg
    | some valid =>
      if valid.contains pasal then reg ++ (", Pasal ").toList ++ (Nat.repr pasal).toList
      else reg ++ unverifSuffix

/-- Fuelled scanner of re.sub over the citation pattern: leftmost,
non-overlapping matches, each replaced through replacer, every other character
copied unchanged. One character or one whole match is consumed per step, so
fuel equal to the length of the text never runs out. -/
def subScanF (excluded : List String) : Nat → List Char → List Char
  | 0, _ => []
  | _ + 1, [] => []
  | f + 1, c :: rest =>
    match matchAt (c :: rest) with
    | some (reg, n, after) => replacer excluded reg n ++ subScanF excluded f after
    | none => c :: subScanF excluded f rest

/-- The re.sub pass of CitationValidator.validate. -/
def citationSub (excluded : List String) (s : List Char) : List Char :=
  subScanF excluded s.length s

/-- Fuelled model of Python str.replace for a nonempty pattern: leftmost,
non-overlapping occurrences, scanned left to right. For an empty pattern it is
the identity (the validator only ever replaces regulation names). -/
def replaceAllF (pat rep : List Char) : Nat → List Char → List Char
  | 0, s => s
  | _ + 1, [] => []
  | f + 1, c :: rest =>
    if leadsWith pat (c :: rest) = true ∧ pat ≠ [] then
      rep ++ replaceAllF pat rep f ((c :: rest).drop pat.length)
    else c :: replaceAllF pat rep f rest

/-- Python str.replace for a nonempty pattern. -/
def replaceAll (pat rep s : List Char) : List Char := replaceAllF pat rep s.length s

/-- Companion splitter of replaceAllF: the pieces of the text between the
occurrences of the pattern that replaceAllF rewrites. -/
def splitAllF (pat : List Char) : Nat → List Char → List (List Char)
  | 0, s => [s]
  | _ + 1, [] => [[]]
  | f + 1, c :: rest =>
    if leadsWith pat (c :: rest) = true ∧ pat ≠ [] then
      [] :: splitAllF pat f ((c :: rest).drop pat.length)
    else
      match splitAllF pat f rest with
      | [] => [[c]]
      | p :: ps => (c :: p) :: ps

/-- The pieces of a text between the occurrences of a pattern. -/
def splitAll (pat s : List Char) : List (List Char) := splitAllF pat s.length s

/-- Join pieces with a separator. -/
def joinSep (sep : List Char) : List (List Char) → List Char
  | [] => []
  | [p] => p
  | p :: q :: rest => p ++ sep ++ joinSep sep (q :: rest)

/-- The final pass of CitationValidator.validate: for each excluded regulation
name in order, suffix every occurrence via str.replace. -/
def exclusionPass (excluded : List String) (s : List Char) : List Char :=
  excluded.foldl (fun acc ex => replaceAll ex.toList (ex.toList ++ exclSuffix) acc) s

/-- CitationValidator.validate with an explicit exclusion list (the source
reads the list from Config). -/
def validateWith (excluded : List String) (t : String) : String :=
  String.mk (exclusionPass excluded (citationSub excluded t.toList))

/-- CitationValidator.validate as shipped, with the empty exclusion list. -/
def validate (t : String) : String := validateWith EXCLUDED_REGULATIONS t

/-- A piece of the scan of the citation pattern: a literal character copied
unchanged, or a matched citation with its captured groups and its raw matched
text. -/
inductive ScanPiece where
  | lit (c : Char)
  | cit (reg : List Char) (pasal : Nat) (raw : List Char)

/-- Scanner trace: the same traversal as subScanF, recording what was copied
and what was matched. -/
def scanTraceF : Nat → List Char → List ScanPiece
  | 0, _ => []
  | _ + 1, [] => []
  | f + 1, c :: rest =>
    match matchAt (c :: rest) with
    | some (reg, n, after) =>
      ScanPiece.cit reg n ((c :: rest).take ((c :: rest).length - after.length)) ::
        scanTraceF f after
    | none => ScanPiece.lit c :: scanTraceF f rest

/-- Reassemble the original text from a scan trace. -/
def renderOrig : List ScanPiece → List Char
  | [] => []
  | ScanPiece.lit c :: ps => c :: renderOrig ps
  | ScanPiece.cit _ _ raw :: ps => raw ++ renderOrig ps

/-- Reassemble the substituted text from a scan trace. -/
def renderRepl (excluded : List String) : List ScanPiece → List Char
  | [] => []
  | ScanPiece.lit c :: ps => c :: renderRepl excluded ps
  | ScanPiece.cit reg n _ :: ps => replacer excluded reg n ++ renderRepl excluded ps

/-- QueryContext from src/app.py. -/
inductive QueryContext where
  | UPLOADED_REGULATIONS
  | PBJ_NO_UPLOAD
  | NON_PBJ
deriving DecidableEq

/-- QueryAnalyzer.detect_pbj_context: case-insensitive substring match of the
question against the keyword list. Python str.lower is modelled per character
over ASCII by Char.toLower; the keywords themselves are ASCII lowercase. -/
def detect_pbj_context (question : String) : Bool :=
  PBJ_KEYWORDS.any (fun kw => occursIn kw.toList (question.toList.map Char.toLower))

/-- QueryAnalyzer.get_uploaded_regulations: the catalog keys, in catalog
order, that occur among the processed file names (exact equality). -/
def get_uploaded_regulations (processed_files : List String) : List String :=
  (REGULATION_STRUCTURE.map Prod.fst).filter (fun r => processed_files.contains r)

/-- QueryAnalyzer.determine_context. -/
def determine_context (question : String) (processed_files : List String) : QueryContext :=
  if get_uploaded_regulations processed_files ≠ [] then QueryContext.UPLOADED_REGULATIONS
  else if detect_pbj_context question then QueryContext.PBJ_NO_UPLOAD
  else QueryContext.NON_PBJ

/-- ResponseData from src/app.py. -/
structure ResponseData where
  output_text : String
  note : String
  warning : String
  source_type : String
deriving DecidableEq

/-- GeminiService.build_prompt: pure assembly of the instruction text. -/
def build_prompt (question : String) (has_uploaded : Bool) : String :=
  let all_regulations := REGULATION_STRUCTURE.map Prod.fst
  let included_regulations := all_regulations.filter (fun r => !(EXCLUDED_REGULATIONS.contains r))
  let regulations_text :=
    String.intercalate "\n" (included_regulations.enum.map (fun ir => Nat.repr (ir.1 + 1) ++ ". " ++ ir.2))
  let excluded_text :=
    if EXCLUDED_REGULATIONS.isEmpty then "Tidak ada"
    else String.intercalate ", " EXCLUDED_REGULATIONS
  let validation_status :=
    if has_uploaded then "REGULASI SUDAH DIUPLOAD - Validitas jawaban terjamin"
    else "⚠️ REGULASI BELUM DIUPLOAD - Validitas jawaban TIDAK terjamin"
  let reliability_note :=
    if has_uploaded then "Jawaban berikut berdasarkan regulasi yang telah diupload dan diverifikasi."
    else "PERINGATAN: Regulasi belum diupload. Jawaban berikut mungkin tidak akurat atau tidak dapat diverifikasi."
  "\nAnda adalah asisten yang sangat teliti dalam menjawab pertanyaan terkait regulasi pengadaan barang/jasa.\n\nSTATUS: "
    ++ validation_status
    ++ "\n\nIkuti aturan berikut secara ketat:\n\n1. Gunakan informasi dari regulasi terlebih dahulu.\n   Jika jawaban untuk pertanyaan dapat ditemukan secara jelas, implisit atau eksplisit dalam regulasi, jawablah hanya berdasarkan regulasi tersebut.\n\n2. Dilarang menggunakan atau menyebut regulasi yang dikecualikan: "
    ++ excluded_text
    ++ "\n\n3. Jika regulasi tidak cukup, Anda boleh menggunakan sumber informasi eksternal untuk menjawab pertanyaan.\n   Namun tetap WAJIB menjelaskan bahwa jawaban utama berasal dari regulasi yang tersedia.\n   Tetap tidak boleh menyertakan regulasi yang dikecualikan.\n\n4. Jangan membuat asumsi atau mengarang ketentuan regulasi.\n   Jika Anda tidak yakin dengan nomor pasal atau ayat, JANGAN mengarang.\n   Anda boleh tetap memberikan jawaban yang benar berdasarkan substansi regulasi tanpa menyebut nomor pasal.\n\n---\n\nDaftar Regulasi:\n"
    ++ regulations_text
    ++ "\n\nPertanyaan:\n"
    ++ question
    ++ "\n\nInstruksi Jawaban:\n- Awali dengan: \""
    ++ reliability_note
    ++ "\"\n- Jawab dengan jelas dan lengkap.\n- Jika Anda mengetahui pasal atau ayat secara pasti, sebutkan.\n- Jika Anda tidak mengetahui pasal secara pasti, tulis tanpa pasal.\n- Tetap wajib mencantumkan nama regulasi yang digunakan.\n- Dilarang menuliskan pasal yang tidak valid.\n- Dilarang menyebut regulasi yang dikecualikan.\n\nFormat jawaban:\n\nJawaban:\n[Isi jawaban yang relevan]\n\nSumber Regulasi:\n[Regulasi yang digunakan, opsional beserta pasal jika diketahui dengan pasti]\n"

/-- A JSON value, the shape of the parsed Gemini response body. -/
inductive JsonVal where
  | null
  | boolVal (b : Bool)
  | num (n : Int)
  | str (s : String)
  | arr (elems : List JsonVal)
  | obj (fields : List (String × JsonVal))

/-- The Python exceptions that can arise inside GeminiService.call_api. -/
inductive PyExn where
  | keyError (msg : String)
  | indexError (msg : String)
  | typeError (msg : String)
  | requestException (msg : String)
deriving DecidableEq

/-- Python subscription of a parsed JSON value by a string key: a dictionary
looks the key up (KeyError when absent); every other value raises TypeError. -/
def getKey (v : JsonVal) (k : String) : Except PyExn JsonVal :=
  match v with
  | JsonVal.obj fields =>
    match fields.lookup k with
    | some x => Except.ok x
    | none => Except.error (PyExn.keyError ("'" ++ k ++ "'"))
  | _ => Except.error (PyExn.typeError "string indices must be integers")

/-- Python subscription of a parsed JSON value by an integer index: a list or
string indexes (IndexError when out of range; a string yields a one-character
string); a dictionary raises KeyError because parsed JSON keys are strings;
every other value raises TypeError. -/
def getIdx (v : JsonVal) (i : Nat) : Except PyExn JsonVal :=
  match v with
  | JsonVal.arr xs =>
    match xs.get? i with
    | some x => Except.ok x
    | none => Except.error (PyExn.indexError "list index out of range")
  | JsonVal.str s =>
    match s.toList.get? i with
    | some c => Except.ok (JsonVal.str (String.mk [c]))
    | none => Except.error (PyExn.indexError "string index out of range")
  | JsonVal.obj _ => Except.error (PyExn.keyError (Nat.repr i))
  | _ => Except.error (PyExn.typeError "object is not subscriptable")

/-- The extraction data candidates 0 content parts 0 text performed by
GeminiService.call_api on the parsed response body. -/
def extractText (data : JsonVal) : Except PyExn JsonVal := do
  let cands ← getKey data "candidates"
  let cand0 ← getIdx cands 0
  let content ← getKey cand0 "content"
  let parts ← getKey content "parts"
  let part0 ← getIdx parts 0
  getKey part0 "text"

/-- The outcome of the HTTP post underlying call_api: either the transport
raised (requests.exceptions.RequestException, which in current requests also
covers JSON decode failures of the body), or a response arrived with a status
code, the message its HTTPError would carry, and a parsed body. -/
inductive HttpResult where
  | transportError (msg : String)
  | response (status : Nat) (statusMsg : String) (body : JsonVal)

/-- response.raise_for_status: raises HTTPError, a RequestException, exactly
for status codes 400 to 599. -/
def raise_for_status (status : Nat) (statusMsg : String) : Except PyExn Unit :=
  if 400 ≤ status ∧ status < 600 then Except.error (PyExn.requestException statusMsg)
  else Except.ok ()

/-- The body of GeminiService.call_api before its exception handlers. -/
def call_api_raw (r : HttpResult) : Except PyExn JsonVal :=
  match r with
  | HttpResult.transportError msg => Except.error (PyExn.requestException msg)
  | HttpResult.response status statusMsg body =>
    match raise_for_status status statusMsg with
    | Except.error e => Except.error e
    | Except.ok _ => extractText body

/-- GeminiService.call_api: the handlers catch RequestException and the pair
KeyError, IndexError, turning them into answer-text strings; any other
exception propagates. -/
def call_api (r : HttpResult) : Except PyExn JsonVal :=
  match call_api_raw r with
  | Except.ok v => Except.ok v
  | Except.error (PyExn.requestException m) =>
    Except.ok (JsonVal.str ("❌ Error dari Gemini API: " ++ m))
  | Except.error (PyExn.keyError m) =>
    Except.ok (JsonVal.str ("❌ Format response tidak valid: " ++ m))
  | Except.error (PyExn.indexError m) =>
    Except.ok (JsonVal.str ("❌ Format response tidak valid: " ++ m))
  | Except.error (PyExn.typeError m) => Except.error (PyExn.typeError m)

/-- ResponseHandler.handle_uploaded_regulations, with the generation client
passed explicitly. The two counters record how many times the generation
client and the citation validator are invoked. -/
def handle_uploaded_regulations (api : String → String) (question : String)
    (uploaded_regs : List String) : ResponseData × Nat × Nat :=
  let prompt := build_prompt question true
  let response := api prompt
  let validated := validate response
  ({ output_text := validated,
     note := "✅ Sumber: " ++ String.intercalate ", " uploaded_regs,
     warning := "",
     source_type := "regulation" }, 1, 1)

/-- ResponseHandler.handle_pbj_no_upload. -/
def handle_pbj_no_upload (api : String → String) (question : String) :
    ResponseData × Nat × Nat :=
  let prompt := build_prompt question false
  let response := api prompt
  let validated := validate response
  ({ output_text := validated,
     note := "Jawaban ini menggunakan pengetahuan umum dan mungkin tidak akurat. Silakan upload regulasi untuk jawaban yang terverifikasi.",
     warning := "⚠️ Regulasi belum diupload. Validitas jawaban TIDAK terjamin.",
     source_type := "external" }, 1, 1)

/-- ResponseHandler.handle_non_pbj: a constant refusal envelope; the question
is ignored, no generation call and no validation happen. -/
def handle_non_pbj (_question : String) : ResponseData × Nat × Nat :=
  ({ output_text := "Maaf, pertanyaan Anda tidak sesuai dengan konteks pengadaan barang/jasa. ReguBot dirancang khusus untuk menjawab pertanyaan terkait regulasi pengadaan barang/jasa di Indonesia.",
     note := "Silakan ajukan pertanyaan terkait: pengadaan barang/jasa, lelang, tender, kontrak, atau regulasi terkait.",
     warning := "",
     source_type := "none" }, 0, 0)

/-- ResponseHandler.process_query, with the generation client passed
explicitly and the state reduced to its processed_files list. -/
def process_query (api : String → String) (question : String)
    (state : List String) : ResponseData × Nat × Nat :=
  let context := determine_context question state
  let uploaded_regs := get_uploaded_regulations state
  match context with
  | QueryContext.UPLOADED_REGULATIONS => handle_uploaded_regulations api question uploaded_regs
  | QueryContext.PBJ_NO_UPLOAD => handle_pbj_no_upload api question
  | QueryContext.NON_PBJ => handle_non_pbj question

/-- Modelled from the spec: the embedding function of the Similarity Index.
The similarity-index component is absent from src/app.py (render_sidebar only
extracts text, chunks it and records file names), so the index is modelled
from the contract in the spec; the concrete vector stands in for an opaque
embedding. -/
def embedVector (chunk : String) : Nat := chunk.length

/-- Modelled from the spec: building a fresh index from a batch of chunks as a
list of chunk and embedding pairs. -/
def buildIndex (chunks : List String) : List (String × Nat) :=
  chunks.map (fun c => (c, embedVector c))

/-- Modelled from the spec: the outcome of attempting to load the persisted
similarity index, which may be absent, unreadable, or successfully loaded. -/
inductive IndexLoad where
  | absent
  | corrupt
  | loaded (entries : List (String × Nat))

/-- Modelled from the spec: createOrUpdate of the Similarity Index, absent
from src/app.py. With no persisted index it builds one from the chunks; with a
readable index it appends; with an unreadable index it discards the store,
rebuilds from the supplied chunks alone and surfaces a recoverable warning
instead of failing the ingestion. -/
def createOrUpdate (store : IndexLoad) (chunks : List String) :
    List (String × Nat) × Option String :=
  match store with
  | IndexLoad.absent => (buildIndex chunks, none)
  | IndexLoad.loaded entries => (entries ++ buildIndex chunks, none)
  | IndexLoad.corrupt =>
    (buildIndex chunks, some "⚠️ Index rusak; dibangun ulang dari dokumen yang diunggah saat ini.")

/-- A constant generation client used to instantiate theorems about the
pipeline at concrete inputs. -/
def constApi : String → String := fun _ => "jawaban"

end ReguBot

namespace ReguBot

/-- Bridge between Boolean membership and propositional membership. -/
theorem contains_true_iff_mem {α : Type} [BEq α] [LawfulBEq α] (l : List α) (a : α) :
    l.contains a = true ↔ a ∈ l :=
  List.elem_iff

/-- C10: when no persisted state file exists, load_state returns a state with an
empty processed_files list rather than failing, and the classifier then takes
only the no-upload paths, PBJ_NO_UPLOAD or NON_PBJ. -/
theorem load_state_missing_file_empty :
    load_state none = ([] : List String)
  ∧ ∀ question : String, determine_context question (load_state none) =
      (if detect_pbj_context question then QueryContext.PBJ_NO_UPLOAD
       else QueryContext.NON_PBJ) := by
  refine ⟨rfl, fun question => ?_⟩
  have h : get_uploaded_regulations (load_state none) = [] := by decide
  simp [determine_context, h]

/-- C7: after ingestion the upload-state record holds exactly the set union of
the previously recorded names and the new batch; no previously recorded name
is ever removed. -/
theorem save_state_union (prev_processed new_file_names : List String) :
    (∀ x : String, x ∈ save_state prev_processed new_file_names ↔
        (x ∈ prev_processed ∨ x ∈ new_file_names))
  ∧ ∀ x ∈ prev_processed, x ∈ save_state prev_processed new_file_names := by
  constructor
  · intro x
    simp [save_state, List.mem_dedup, List.mem_append]
  · intro x hx
    simp only [save_state, List.mem_dedup, List.mem_append]
    exact Or.inl hx

/-- Concrete application of save_state_union. -/
theorem save_state_union_app :
    "Perbup No 44 Tahun 2020" ∈
      save_state ["Perbup No 44 Tahun 2020"] ["UU No 3 Tahun 2024"] :=
  (save_state_union ["Perbup No 44 Tahun 2020"] ["UU No 3 Tahun 2024"]).2
    "Perbup No 44 Tahun 2020" (by simp)

/-- C3: when the persisted similarity index fails to load during ingestion,
createOrUpdate still succeeds, returning an index containing exactly the
supplied chunks and surfacing a corruption warning instead of failing. -/
theorem index_recovery_rebuilds_from_chunks (chunks : List String) :
    (createOrUpdate IndexLoad.corrupt chunks).1.map Prod.fst = chunks
  ∧ ((createOrUpdate IndexLoad.corrupt chunks).2).isSome = true := by
  constructor
  · show (chunks.map (fun c => (c, embedVector c))).map Prod.fst = chunks
    induction chunks with
    | nil => rfl
    | cons c cs ih => simp [ih]
  · rfl

/-- C6 counterexample: with chunk_size = 1 (positive) and chunk_overlap = 1
(so overlap equals size), create_chunks does not fail: the splitter
constructor accepts the parameters, contradicting the claim that every
overlap greater than or equal to the size fails. -/
theorem create_chunks_equal_overlap_accepted :
    0 < 1 ∧ 1 ≤ 1 ∧ create_chunks_config "" 1 1 = Except.ok (1, 1) :=
  ⟨Nat.one_pos, Nat.le_refl 1, rfl⟩

/-- C6 amended: for every text, create_chunks fails with the configuration
error exactly when the overlap is strictly greater than the size; whenever the
overlap is at most the size (equality included) the parameters are accepted
unchanged, so nothing is clamped. -/
theorem create_chunks_rejects_iff_overlap_gt_size (text : String)
    (chunk_size chunk_overlap : Nat) :
    ((∃ e, create_chunks_config text chunk_size chunk_overlap = Except.error e) ↔
        chunk_size < chunk_overlap)
  ∧ (chunk_overlap ≤ chunk_size →
      create_chunks_config text chunk_size chunk_overlap =
        Except.ok (chunk_size, chunk_overlap)) := by
  constructor
  · constructor
    · rintro ⟨e, he⟩
      by_contra hlt
      simp [create_chunks_config, splitterInit, hlt] at he
    · intro h
      refine ⟨"Got a larger chunk overlap than chunk size, should be smaller.", ?_⟩
      simp [create_chunks_config, splitterInit, h]
  · intro h
    have hn : ¬ chunk_size < chunk_overlap := by omega
    simp [create_chunks_config, splitterInit, hn]

/-- Concrete application of create_chunks_rejects_iff_overlap_gt_size. -/
theorem create_chunks_rejects_iff_overlap_gt_size_app :
    create_chunks_config "" 2 1 = Except.ok (2, 1) :=
  (create_chunks_rejects_iff_overlap_gt_size "" 2 1).2 (by decide)

/-- C5 counterexample: a response whose parsed body is the JSON string x makes
the extraction subscript a non-object, raising TypeError, which the handlers
of call_api do not catch: the call propagates an exception instead of
returning answer text. -/
theorem call_api_typeerror_propagates :
    call_api (HttpResult.response 200 "" (JsonVal.str "x")) =
        Except.error (PyExn.typeError "string indices must be integers")
  ∧ ∀ s : String, call_api (HttpResult.response 200 "" (JsonVal.str "x")) ≠
        Except.ok (JsonVal.str s) := by
  have h1 : call_api (HttpResult.response 200 "" (JsonVal.str "x")) =
      Except.error (PyExn.typeError "string indices must be integers") := rfl
  exact ⟨h1, fun s h => by rw [h1] at h; exact Except.noConfusion h⟩

/-- C5 amended: transport failures and HTTP status failures (400 to 599) are
both converted to the answer-text string with the request-error template (one
shared template, not two distinct ones); response shapes raising KeyError or
IndexError are converted to the format-error template; successful extraction
returns the extracted value; but shapes raising TypeError propagate an
uncaught exception. -/
theorem call_api_error_translation :
    (∀ m, call_api (HttpResult.transportError m) =
        Except.ok (JsonVal.str ("❌ Error dari Gemini API: " ++ m)))
  ∧ (∀ status statusMsg body, 400 ≤ status → status < 600 →
        call_api (HttpResult.response status statusMsg body) =
          Except.ok (JsonVal.str ("❌ Error dari Gemini API: " ++ statusMsg)))
  ∧ (∀ status statusMsg body m, ¬ (400 ≤ status ∧ status < 600) →
        extractText body = Except.error (PyExn.keyError m) →
        call_api (HttpResult.response status statusMsg body) =
          Except.ok (JsonVal.str ("❌ Format response tidak valid: " ++ m)))
  ∧ (∀ status statusMsg body m, ¬ (400 ≤ status ∧ status < 600) →
        extractText body = Except.error (PyExn.indexError m) →
        call_api (HttpResult.response status statusMsg body) =
          Except.ok (JsonVal.str ("❌ Format response tidak valid: " ++ m)))
  ∧ (∀ status statusMsg body m, ¬ (400 ≤ status ∧ status < 600) →
        extractText body = Except.error (PyExn.typeError m) →
        call_api (HttpResult.response status statusMsg body) =
          Except.error (PyExn.typeError m))
  ∧ (∀ status statusMsg body v, ¬ (400 ≤ status ∧ status < 600) →
        extractText body = Except.ok v →
        call_api (HttpResult.response status statusMsg body) = Except.ok v) := by
  refine ⟨fun m => rfl, ?_, ?_, ?_, ?_, ?_⟩
  · intro status statusMsg body h1 h2
    simp [call_api, call_api_raw, raise_for_status, h1, h2]
  · intro status statusMsg body m h1 h2
    simp [call_api, call_api_raw, raise_for_status, h1, h2]
  · intro status statusMsg body m h1 h2
    simp [call_api, call_api_raw, raise_for_status, h1, h2]
  · intro status statusMsg body m h1 h2
    simp [call_api, call_api_raw, raise_for_status, h1, h2]
  · intro status statusMsg body v h1 h2
    simp [call_api, call_api_raw, raise_for_status, h1, h2]

/-- Concrete application of call_api_error_translation. -/
theorem call_api_error_translation_app :
    call_api (HttpResult.response 404 "404 Client Error: Not Found" JsonVal.null) =
      Except.ok (JsonVal.str ("❌ Error dari Gemini API: " ++ "404 Client Error: Not Found")) :=
  call_api_error_translation.2.1 404 "404 Client Error: Not Found" JsonVal.null
    (by decide) (by decide)

/-- C9: a question classified NON_PBJ gets a fixed, question-independent
refusal envelope with source_type none and a fixed note, and the pipeline
invokes neither the generation client nor the citation validator (both
invocation counters are zero); the right-hand side is a closed constant, so it
depends neither on the question nor on the generation client. -/
theorem non_pbj_fixed_envelope (api : String → String) (question : String)
    (state : List String)
    (h : determine_context question state = QueryContext.NON_PBJ) :
    process_query api question state =
      ({ output_text := "Maaf, pertanyaan Anda tidak sesuai dengan konteks pengadaan barang/jasa. ReguBot dirancang khusus untuk menjawab pertanyaan terkait regulasi pengadaan barang/jasa di Indonesia.",
         note := "Silakan ajukan pertanyaan terkait: pengadaan barang/jasa, lelang, tender, kontrak, atau regulasi terkait.",
         warning := "",
         source_type := "none" }, 0, 0) := by
  simp [process_query, h, handle_non_pbj]

/-- Concrete application of non_pbj_fixed_envelope. -/
theorem non_pbj_fixed_envelope_app :
    process_query constApi "Apa kabar hari ini" [] =
      ({ output_text := "Maaf, pertanyaan Anda tidak sesuai dengan konteks pengadaan barang/jasa. ReguBot dirancang khusus untuk menjawab pertanyaan terkait regulasi pengadaan barang/jasa di Indonesia.",
         note := "Silakan ajukan pertanyaan terkait: pengadaan barang/jasa, lelang, tender, kontrak, atau regulasi terkait.",
         warning := "",
         source_type := "none" }, 0, 0) :=
  non_pbj_fixed_envelope constApi "Apa kabar hari ini" [] (by decide)

end ReguBot

namespace ReguBot

/-- C1: the classifier returns UPLOADED_REGULATIONS whenever at least one
catalog regulation name appears among the processed file names, regardless of
the question; otherwise it returns PBJ_NO_UPLOAD exactly when the lowercased
question contains some keyword of the fixed list as a substring, and NON_PBJ
otherwise. -/
theorem classifier_cases (question : String) (processed_files : List String) :
    ((∃ r ∈ REGULATION_STRUCTURE.map Prod.fst, r ∈ processed_files) →
        determine_context question processed_files = QueryContext.UPLOADED_REGULATIONS)
  ∧ ((¬ ∃ r ∈ REGULATION_STRUCTURE.map Prod.fst, r ∈ processed_files) →
      ((∃ kw ∈ PBJ_KEYWORDS, occursIn kw.toList (question.toList.map Char.toLower) = true) →
          determine_context question processed_files = QueryContext.PBJ_NO_UPLOAD)
    ∧ ((¬ ∃ kw ∈ PBJ_KEYWORDS, occursIn kw.toList (question.toList.map Char.toLower) = true) →
          determine_context question processed_files = QueryContext.NON_PBJ)) := by
  have hbridge : get_uploaded_regulations processed_files = [] ↔
      ¬ ∃ r ∈ REGULATION_STRUCTURE.map Prod.fst, r ∈ processed_files := by
    rw [get_uploaded_regulations, List.filter_eq_nil_iff]
    constructor
    · rintro h ⟨r, hr, hmem⟩
      exact h r hr (List.elem_iff.mpr hmem)
    · intro h r hr hc
      exact h ⟨r, hr, List.elem_iff.mp hc⟩
  refine ⟨?_, ?_⟩
  · intro hex
    have hne : get_uploaded_regulations processed_files ≠ [] :=
      fun h => (hbridge.mp h) hex
    simp [determine_context, hne]
  · intro hnex
    have heq : get_uploaded_regulations processed_files = [] := hbridge.mpr hnex
    refine ⟨?_, ?_⟩
    · intro hkw
      have hdet : detect_pbj_context question = true := by
        rw [detect_pbj_context, List.any_eq_true]
        exact hkw
      simp [determine_context, heq, hdet]
    · intro hnkw
      have hdet : detect_pbj_context question = false := by
        rw [Bool.eq_false_iff]
        intro hb
        rw [detect_pbj_context, List.any_eq_true] at hb
        exact hnkw hb
      simp [determine_context, heq, hdet]

/-- Concrete application of classifier_cases on the three paths. -/
theorem classifier_cases_app :
    determine_context "Apa kabar hari ini" ["UU No 3 Tahun 2024"] =
        QueryContext.UPLOADED_REGULATIONS
  ∧ determine_context "Apa itu tender" [] = QueryContext.PBJ_NO_UPLOAD
  ∧ determine_context "Apa kabar hari ini" [] = QueryContext.NON_PBJ :=
  ⟨(classifier_cases "Apa kabar hari ini" ["UU No 3 Tahun 2024"]).1 (by decide),
   ((classifier_cases "Apa itu tender" []).2 (by decide)).1 (by decide),
   ((classifier_cases "Apa kabar hari ini" []).2 (by decide)).2 (by decide)⟩

/-- The fixed citation form and the unverifiable form are never the same
string, whatever the article number is. -/
theorem pasal_ne_unverif (reg : List Char) (n : Nat) :
    reg ++ (", Pasal ").toList ++ (Nat.repr n).toList ≠ reg ++ unverifSuffix := by
  intro h
  rw [List.append_assoc] at h
  have h2 := List.append_cancel_left h
  have e1 : (", Pasal ").toList ++ (Nat.repr n).toList =
      ',' :: ((" Pasal ").toList ++ (Nat.repr n).toList) := rfl
  have e2 : unverifSuffix = ' ' :: ("(pasal tidak dapat diverifikasi)").toList := rfl
  rw [e1, e2] at h2
  injection h2 with h3 h4
  exact absurd h3 (by decide)

/-- C2: the replacement applied by the validator to each citation match, with
the captured name already stripped: an excluded name gets the excluded-from-use
form; a name outside the catalog gets the not-verifiable form; a catalog entry
with an empty article set keeps the bare name; otherwise the canonical
citation is kept if and only if the article number is in the valid set, and
replaced by the not-verifiable form if and only if it is not. -/
theorem citation_replacer_cases (excluded : List String) (reg : List Char) (n : Nat)
    (htrim : trimList reg = reg) :
    (String.mk reg ∈ excluded → replacer excluded reg n = reg ++ exclSuffix)
  ∧ (String.mk reg ∉ excluded →
      REGULATION_STRUCTURE.lookup (String.mk reg) = none →
      replacer excluded reg n = reg ++ unverifSuffix)
  ∧ (String.mk reg ∉ excluded →
      REGULATION_STRUCTURE.lookup (String.mk reg) = some [] →
      replacer excluded reg n = reg)
  ∧ (∀ vs, String.mk reg ∉ excluded →
      REGULATION_STRUCTURE.lookup (String.mk reg) = some vs → vs ≠ [] →
      ((replacer excluded reg n = reg ++ (", Pasal ").toList ++ (Nat.repr n).toList) ↔ n ∈ vs)
    ∧ ((replacer excluded reg n = reg ++ unverifSuffix) ↔ n ∉ vs)) := by
  refine ⟨?_, ?_, ?_, ?_⟩
  · intro hmem
    simp [replacer, htrim, hmem]
  · intro hmem hlook
    simp [replacer, htrim, hmem, hlook]
  · intro hmem hlook
    simp [replacer, htrim, hmem, hlook]
  · intro vs hmem hlook hne
    obtain ⟨v, vt, rfl⟩ : ∃ v vt, vs = v :: vt := by
      cases vs with
      | nil => exact absurd rfl hne
      | cons v vt => exact ⟨v, vt, rfl⟩
    have hrepl : replacer excluded reg n =
        (if n ∈ v :: vt then reg ++ (", Pasal ").toList ++ (Nat.repr n).toList
         else reg ++ unverifSuffix) := by
      by_cases hn : n ∈ v :: vt
      · simp [replacer, htrim, hmem, hlook, hn]
      · simp [replacer, htrim, hmem, hlook, hn]
    by_cases hn : n ∈ v :: vt
    · have hout : replacer excluded reg n =
          reg ++ (", Pasal ").toList ++ (Nat.repr n).toList := by
        rw [hrepl, if_pos hn]
      refine ⟨⟨fun _ => hn, fun _ => hout⟩, ?_, ?_⟩
      · intro h
        rw [hout] at h
        exact absurd h (pasal_ne_unverif reg n)
      · intro h
        exact absurd hn h
    · have hout : replacer excluded reg n = reg ++ unverifSuffix := by
        rw [hrepl, if_neg hn]
      refine ⟨⟨?_, ?_⟩, fun _ => hn, fun _ => hout⟩
      · intro h
        rw [hout] at h
        exact absurd h.symm (pasal_ne_unverif reg n)
      · intro hm
        exact absurd hm hn
  
/-- Concrete application of citation_replacer_cases. -/
theorem citation_replacer_cases_app :
    replacer [] ("UU No 3 Tahun 2024").toList 5 =
      ("UU No 3 Tahun 2024").toList ++ (", Pasal ").toList ++ (Nat.repr 5).toList :=
  ((citation_replacer_cases [] ("UU No 3 Tahun 2024").toList 5 (by decide)).2.2.2
    (List.range' 1 132) (by simp) (by decide) (by decide)).1.mpr (by decide)

end ReguBot

namespace ReguBot

/-- A nonempty pattern is not an initial segment of the empty text. -/
theorem leadsWith_nil (pat : List Char) (hpat : pat ≠ []) : leadsWith pat [] = false := by
  cases pat with
  | nil => exact absurd rfl hpat
  | cons a ps => rfl

/-- An initial segment of a text is an initial segment of any extension. -/
theorem leadsWith_append_of (p l t : List Char) (h : leadsWith p l = true) :
    leadsWith p (l ++ t) = true := by
  induction p generalizing l with
  | nil => rfl
  | cons a ps ih =>
    cases l with
    | nil => exact absurd h (by simp [leadsWith])
    | cons c cs =>
      simp only [leadsWith, Bool.and_eq_true, beq_iff_eq] at h
      simp only [List.cons_append, leadsWith, Bool.and_eq_true, beq_iff_eq]
      exact ⟨h.1, ih cs h.2⟩

/-- An initial segment plus the rest of the text reassembles the text. -/
theorem leadsWith_append_drop (p s : List Char) (h : leadsWith p s = true) :
    p ++ s.drop p.length = s := by
  induction p generalizing s with
  | nil => simp
  | cons a ps ih =>
    cases s with
    | nil => exact absurd h (by simp [leadsWith])
    | cons c cs =>
      simp only [leadsWith, Bool.and_eq_true, beq_iff_eq] at h
      simp only [List.cons_append, List.length_cons, List.drop_succ_cons]
      rw [h.1, ih cs h.2]

/-- The text after the comma step is a proper final segment of the input. -/
theorem afterComma_split (s r2 : List Char) (h : afterComma s = some r2) :
    ∃ pre, pre ≠ [] ∧ s = pre ++ r2 := by
  unfold afterComma at h
  split at h
  next r heq =>
    obtain rfl : r = r2 := by injection h
    refine ⟨s.takeWhile (fun c => c != ',') ++ [','], by simp, ?_⟩
    rw [List.append_assoc, List.singleton_append, ← heq]
    exact (List.takeWhile_append_dropWhile _ _).symm
  next => exact absurd h (by simp)

/-- The text after the article step is a final segment of its input. -/
theorem parsePasal_split (r2 : List Char) (n : Nat) (after : List Char)
    (h : parsePasal r2 = some (n, after)) : ∃ mid, r2 = mid ++ after := by
  have hsfx : after <:+ r2 := by
    simp only [parsePasal] at h
    split at h
    · split at h
      · exact absurd h (by simp)
      · simp only [Option.some.injEq, Prod.mk.injEq] at h
        obtain ⟨-, h2⟩ := h
        rw [← h2]
        exact ((List.drop_suffix _ _).trans ((List.dropWhile_suffix _).trans
          ((List.drop_suffix _ _).trans (List.dropWhile_suffix _))))
    · exact absurd h (by simp)
  obtain ⟨mid, hmid⟩ := hsfx
  exact ⟨mid, hmid.symm⟩

/-- The text after a citation match is a proper final segment of the input. -/
theorem matchAt_split (s reg : List Char) (n : Nat) (after : List Char)
    (h : matchAt s = some (reg, n, after)) : ∃ pre, pre ≠ [] ∧ s = pre ++ after := by
  unfold matchAt at h
  split at h
  · cases hac : afterComma s with
    | none =>
      simp only [hac] at h
      exact Option.noConfusion h
    | some r2 =>
      simp only [hac] at h
      cases hpp : parsePasal r2 with
      | none =>
        simp only [hpp] at h
        exact Option.noConfusion h
      | some val =>
        obtain ⟨m, aft⟩ := val
        simp only [hpp] at h
        simp only [Option.some.injEq, Prod.mk.injEq] at h
        obtain ⟨-, -, h3⟩ := h
        subst h3
        obtain ⟨pre1, hpre1, hs⟩ := afterComma_split s r2 hac
        obtain ⟨mid, hmid⟩ := parsePasal_split r2 m aft hpp
        refine ⟨pre1 ++ mid, by simp [hpre1], ?_⟩
        rw [hs, hmid, List.append_assoc]
  · exact absurd h (by simp)

/-- A citation match consumes at least one character. -/
theorem matchAt_after_lt (s reg : List Char) (n : Nat) (after : List Char)
    (h : matchAt s = some (reg, n, after)) : after.length < s.length := by
  obtain ⟨pre, hpre, hs⟩ := matchAt_split s reg n after h
  rw [hs, List.length_append]
  have : 0 < pre.length := List.length_pos.mpr hpre
  omega

/-- The empty text holds no citation match. -/
theorem matchAt_nil : matchAt ([] : List Char) = none := by decide

/-- The scan trace reassembles the input text exactly. -/
theorem renderOrig_scanTraceF (f : Nat) (s : List Char) (hf : s.length ≤ f) :
    renderOrig (scanTraceF f s) = s := by
  induction f generalizing s with
  | zero =>
    obtain rfl : s = [] := List.length_eq_zero.mp (Nat.le_zero.mp hf)
    rfl
  | succ f ih =>
    cases s with
    | nil => rfl
    | cons c rest =>
      cases hm : matchAt (c :: rest) with
      | none =>
        simp only [scanTraceF, hm, renderOrig]
        rw [ih rest (Nat.le_of_succ_le_succ hf)]
      | some val =>
        obtain ⟨reg, n, after⟩ := val
        obtain ⟨pre, hpre, hs⟩ := matchAt_split _ _ _ _ hm
        have hlt : after.length < (c :: rest).length := matchAt_after_lt _ _ _ _ hm
        have hle : after.length ≤ f := by
          have h1 : (c :: rest).length = rest.length + 1 := rfl
          have h2 : (c :: rest).length ≤ f + 1 := hf
          omega
        simp only [scanTraceF, hm, renderOrig]
        rw [ih after hle, hs]
        have hL : (pre ++ after).length - after.length = pre.length := by
          simp [List.length_append]
        rw [hL, List.take_left]

/-- Rendering the replacements of the scan trace is the substitution scan. -/
theorem renderRepl_scanTraceF (excluded : List String) (f : Nat) (s : List Char) :
    renderRepl excluded (scanTraceF f s) = subScanF excluded f s := by
  induction f generalizing s with
  | zero => rfl
  | succ f ih =>
    cases s with
    | nil => rfl
    | cons c rest =>
      cases hm : matchAt (c :: rest) with
      | none =>
        simp only [scanTraceF, subScanF, hm, renderRepl]
        rw [ih rest]
      | some val =>
        obtain ⟨reg, n, after⟩ := val
        simp only [scanTraceF, subScanF, hm, renderRepl]
        rw [ih after]

/-- When no position of the text matches the citation pattern, the
substitution scan is the identity. -/
theorem subScanF_no_match (excluded : List String) (f : Nat) (s : List Char)
    (hf : s.length ≤ f) (h : ∀ i, matchAt (s.drop i) = none) :
    subScanF excluded f s = s := by
  induction f generalizing s with
  | zero =>
    obtain rfl : s = [] := List.length_eq_zero.mp (Nat.le_zero.mp hf)
    rfl
  | succ f ih =>
    cases s with
    | nil => rfl
    | cons c rest =>
      have h0 : matchAt (c :: rest) = none := by simpa using h 0
      simp only [subScanF, h0]
      rw [ih rest (Nat.le_of_succ_le_succ hf) (fun i => by simpa using h (i + 1))]

/-- C8: the validator alters nothing outside the matched citations with the
shipped empty exclusion list: the scan trace reassembles exactly the input on
the original side and exactly the validator output on the replacement side (so
every character outside a match is copied unchanged), and on an input with
zero citation matches validate returns its input unchanged. -/
theorem citation_validator_frame (t : String) :
    renderOrig (scanTraceF t.toList.length t.toList) = t.toList
  ∧ renderRepl EXCLUDED_REGULATIONS (scanTraceF t.toList.length t.toList) =
      (validate t).toList
  ∧ ((∀ i, i < t.toList.length → matchAt (t.toList.drop i) = none) →
      validate t = t) := by
  refine ⟨renderOrig_scanTraceF _ _ (Nat.le_refl _), ?_, ?_⟩
  · rw [renderRepl_scanTraceF]
    rfl
  · intro h
    have hall : ∀ i, matchAt (t.toList.drop i) = none := by
      intro i
      by_cases hi : i < t.toList.length
      · exact h i hi
      · rw [List.drop_eq_nil_of_le (by omega)]
        exact matchAt_nil
    have hsub : subScanF EXCLUDED_REGULATIONS t.toList.length t.toList = t.toList :=
      subScanF_no_match _ _ _ (Nat.le_refl _) hall
    have h2 : validate t =
        String.mk (subScanF EXCLUDED_REGULATIONS t.toList.length t.toList) := rfl
    rw [h2, hsub]
    rfl

/-- Concrete application of citation_validator_frame. -/
theorem citation_validator_frame_app : validate "Halo dunia" = "Halo dunia" :=
  (citation_validator_frame "Halo dunia").2.2 (by decide)

end ReguBot

namespace ReguBot

/-- Dropping a nonempty pattern from a nonempty text fits in one less fuel. -/
theorem drop_pat_len_le (pat : List Char) (hpat : pat ≠ []) (c : Char) (rest : List Char)
    (f : Nat) (hf : (c :: rest).length ≤ f + 1) :
    ((c :: rest).drop pat.length).length ≤ f := by
  have h1 : (c :: rest).length = rest.length + 1 := rfl
  have h2 : 0 < pat.length := List.length_pos.mpr hpat
  rw [List.length_drop]
  omega

/-- The splitter always produces at least one piece. -/
theorem splitAllF_ne_nil (pat : List Char) (f : Nat) (s : List Char) :
    splitAllF pat f s ≠ [] := by
  cases f with
  | zero => simp [splitAllF]
  | succ f =>
    cases s with
    | nil => simp [splitAllF]
    | cons c rest =>
      rw [splitAllF]
      split
      · simp
      · cases hsp : splitAllF pat f rest with
        | nil => simp [hsp]
        | cons p ps => simp [hsp]

/-- The first piece of a join is an initial segment of the join. -/
theorem joinSep_head (sep p : List Char) (ps : List (List Char)) :
    ∃ t, joinSep sep (p :: ps) = p ++ t := by
  cases ps with
  | nil => exact ⟨[], by simp [joinSep]⟩
  | cons q qs => exact ⟨sep ++ joinSep sep (q :: qs), by simp [joinSep, List.append_assoc]⟩

/-- A character prepended to the first piece moves out of the join. -/
theorem joinSep_cons_cons (sep p : List Char) (c : Char) (ps : List (List Char)) :
    joinSep sep ((c :: p) :: ps) = c :: joinSep sep (p :: ps) := by
  cases ps with
  | nil => simp [joinSep]
  | cons q qs => simp [joinSep]

/-- Joining the pieces with the pattern itself reassembles the input text:
the splitter cuts the text exactly at the occurrences it removes. -/
theorem joinSep_splitAllF (pat : List Char) (hpat : pat ≠ []) (f : Nat) (s : List Char)
    (hf : s.length ≤ f) : joinSep pat (splitAllF pat f s) = s := by
  induction f generalizing s with
  | zero => rfl
  | succ f ih =>
    cases s with
    | nil => rfl
    | cons c rest =>
      by_cases hcond : leadsWith pat (c :: rest) = true ∧ pat ≠ []
      · rw [splitAllF, if_pos hcond]
        obtain ⟨hlw, -⟩ := hcond
        have hlen := drop_pat_len_le pat hpat c rest f hf
        cases hrec2 : splitAllF pat f ((c :: rest).drop pat.length) with
        | nil => exact absurd hrec2 (splitAllF_ne_nil _ _ _)
        | cons p0 ps =>
          have e : joinSep pat ([] :: p0 :: ps) = [] ++ pat ++ joinSep pat (p0 :: ps) := rfl
          rw [e, List.nil_append]
          have hrec := ih _ hlen
          rw [hrec2] at hrec
          rw [hrec]
          exact leadsWith_append_drop pat (c :: rest) hlw
      · rw [splitAllF, if_neg hcond]
        cases hsp : splitAllF pat f rest with
        | nil => exact absurd hsp (splitAllF_ne_nil _ _ _)
        | cons p0 ps =>
          simp only [hsp, joinSep_cons_cons]
          have hrec := ih rest (Nat.le_of_succ_le_succ hf)
          rw [hsp] at hrec
          rw [hrec]

/-- The replacement scan equals the pieces joined with the replacement: every
occurrence the splitter cuts at is rewritten to the replacement string. -/
theorem replaceAllF_eq_joinSep (pat rep : List Char) (hpat : pat ≠ []) (f : Nat)
    (s : List Char) (hf : s.length ≤ f) :
    replaceAllF pat rep f s = joinSep rep (splitAllF pat f s) := by
  induction f generalizing s with
  | zero => rfl
  | succ f ih =>
    cases s with
    | nil => rfl
    | cons c rest =>
      by_cases hcond : leadsWith pat (c :: rest) = true ∧ pat ≠ []
      · rw [replaceAllF, splitAllF, if_pos hcond, if_pos hcond]
        have hlen := drop_pat_len_le pat hpat c rest f hf
        cases hrec2 : splitAllF pat f ((c :: rest).drop pat.length) with
        | nil => exact absurd hrec2 (splitAllF_ne_nil _ _ _)
        | cons p0 ps =>
          have e : joinSep rep ([] :: p0 :: ps) = [] ++ rep ++ joinSep rep (p0 :: ps) := rfl
          rw [e, List.nil_append]
          rw [ih _ hlen, hrec2]
      · rw [replaceAllF, splitAllF, if_neg hcond, if_neg hcond]
        cases hsp : splitAllF pat f rest with
        | nil => exact absurd hsp (splitAllF_ne_nil _ _ _)
        | cons p0 ps =>
          simp only [hsp, joinSep_cons_cons]
          rw [ih rest (Nat.le_of_succ_le_succ hf), hsp]

/-- No piece produced by the splitter contains an occurrence of the pattern. -/
theorem splitAllF_free (pat : List Char) (hpat : pat ≠ []) (f : Nat) (s : List Char)
    (hf : s.length ≤ f) :
    ∀ p ∈ splitAllF pat f s, ∀ i, leadsWith pat (p.drop i) = false := by
  induction f generalizing s with
  | zero =>
    obtain rfl : s = [] := List.length_eq_zero.mp (Nat.le_zero.mp hf)
    intro p hp i
    simp only [splitAllF, List.mem_singleton] at hp
    subst hp
    rw [List.drop_nil]
    exact leadsWith_nil pat hpat
  | succ f ih =>
    cases s with
    | nil =>
      intro p hp i
      simp only [splitAllF, List.mem_singleton] at hp
      subst hp
      rw [List.drop_nil]
      exact leadsWith_nil pat hpat
    | cons c rest =>
      by_cases hcond : leadsWith pat (c :: rest) = true ∧ pat ≠ []
      · rw [splitAllF, if_pos hcond]
        intro p hp i
        rcases List.mem_cons.mp hp with rfl | hp2
        · rw [List.drop_nil]
          exact leadsWith_nil pat hpat
        · exact ih _ (drop_pat_len_le pat hpat c rest f hf) p hp2 i
      · rw [splitAllF, if_neg hcond]
        have hlwf : leadsWith pat (c :: rest) = false := by
          cases hb : leadsWith pat (c :: rest) with
          | false => rfl
          | true => exact absurd ⟨hb, hpat⟩ hcond
        have ihrest := ih rest (Nat.le_of_succ_le_succ hf)
        cases hsp : splitAllF pat f rest with
        | nil => exact absurd hsp (splitAllF_ne_nil _ _ _)
        | cons p0 ps =>
          simp only [hsp]
          intro p hp i
          rcases List.mem_cons.mp hp with rfl | hp2
          · cases i with
            | zero =>
              rw [List.drop_zero]
              cases hb : leadsWith pat (c :: p0) with
              | false => rfl
              | true =>
                exfalso
                have hj := joinSep_splitAllF pat hpat f rest (Nat.le_of_succ_le_succ hf)
                rw [hsp] at hj
                obtain ⟨tail, htail⟩ := joinSep_head pat p0 ps
                rw [htail] at hj
                have hext : leadsWith pat ((c :: p0) ++ tail) = true :=
                  leadsWith_append_of pat (c :: p0) tail hb
                rw [List.cons_append, hj] at hext
                rw [hlwf] at hext
                exact Bool.noConfusion hext
            | succ j =>
              rw [List.drop_succ_cons]
              exact ihrest p0 (by rw [hsp]; exact List.mem_cons_self p0 ps) j
          · exact ihrest p (by rw [hsp]; exact List.mem_cons_of_mem p0 hp2) i

/-- C4 counterexample: with exclusion list [a] and input a, the validator
output is the name followed by the exclusion suffix, and the occurrence of a
at position 9 of the output (inside the inserted suffix word dikecualikan) is
not itself followed by the suffix, so not every literal occurrence of an
excluded name in the output carries the suffix. -/
theorem excluded_name_suffix_counterexample :
    "a" ∈ (["a"] : List String)
  ∧ leadsWith "a".toList ((validateWith ["a"] "a").toList.drop 9) = true
  ∧ leadsWith exclSuffix ((validateWith ["a"] "a").toList.drop (9 + "a".length)) = false := by
  decide

/-- C4 amended: for a singleton exclusion list with a nonempty name r, the
exclusion pass rewrites exactly the leftmost non-overlapping occurrences of r
in the citation-pass output u: u splits into pieces containing no occurrence
of r, u is the pieces joined by r, and the validator output is the same pieces
joined by r followed by the exclusion suffix. Occurrences of r that arise
inside the inserted annotation text are not themselves annotated. -/
theorem exclusion_pass_annotates_all_matches (r : String) (t : String)
    (hr : r.toList ≠ []) :
    ((validateWith [r] t).toList =
        joinSep (r.toList ++ exclSuffix) (splitAll r.toList (citationSub [r] t.toList)))
  ∧ citationSub [r] t.toList =
      joinSep r.toList (splitAll r.toList (citationSub [r] t.toList))
  ∧ ∀ p ∈ splitAll r.toList (citationSub [r] t.toList), ∀ i,
      leadsWith r.toList (p.drop i) = false := by
  refine ⟨?_, ?_, ?_⟩
  · have h1 : (validateWith [r] t).toList =
        replaceAllF r.toList (r.toList ++ exclSuffix)
          (citationSub [r] t.toList).length (citationSub [r] t.toList) := rfl
    rw [h1, replaceAllF_eq_joinSep r.toList (r.toList ++ exclSuffix) hr
      (citationSub [r] t.toList).length (citationSub [r] t.toList) (Nat.le_refl _)]
    rfl
  · exact (joinSep_splitAllF r.toList hr
      (citationSub [r] t.toList).length (citationSub [r] t.toList) (Nat.le_refl _)).symm
  · exact splitAllF_free r.toList hr
      (citationSub [r] t.toList).length (citationSub [r] t.toList) (Nat.le_refl _)

/-- Concrete application of exclusion_pass_annotates_all_matches. -/
theorem exclusion_pass_annotates_all_matches_app :
    (validateWith ["x"] "axa").toList =
      joinSep ("x".toList ++ exclSuffix)
        (splitAll "x".toList (citationSub ["x"] "axa".toList)) :=
  (exclusion_pass_annotates_all_matches "x" "axa" (by decide)).1

end ReguBot
